import Mathlib

/-!
Shallow embedding of the pyModbusTCPServer repository
(`src/pyModbusTCPServer/server.py`): the thread-safe `DataBank` bit and
word spaces, the inline MBAP/PDU codec, and one iteration of the
`ModbusService.handle` session loop.  Bytes are modelled as `Nat`
(values below 256 where the Python code guarantees it), `struct`
unpacking as `Option`-returning decoders that fail exactly when
`struct.unpack` would raise, and the session's silent close as `none`.
-/

namespace PyModbus

/-! ## Modbus constants (`server.py` lines 17-35) -/

def READ_COILS : Nat := 0x01
def READ_DISCRETE_INPUTS : Nat := 0x02
def READ_HOLDING_REGISTERS : Nat := 0x03
def READ_INPUT_REGISTERS : Nat := 0x04
def WRITE_SINGLE_COIL : Nat := 0x05
def WRITE_SINGLE_REGISTER : Nat := 0x06
def WRITE_MULTIPLE_COILS : Nat := 0x0F
def WRITE_MULTIPLE_REGISTERS : Nat := 0x10

def EXP_NONE : Nat := 0x00
def EXP_ILLEGAL_FUNCTION : Nat := 0x01
def EXP_DATA_ADDRESS : Nat := 0x02
def EXP_DATA_VALUE : Nat := 0x03

/-! ## Bit helpers (`server.py` lines 39-51) -/

/-- `test_bit(value, offset)`: `bool(value & (1 << offset))`. -/
def test_bit (value offset : Nat) : Bool :=
  value &&& (1 <<< offset) ≠ 0

/-- `set_bit(value, offset)`: `value | (1 << offset)`. -/
def set_bit (value offset : Nat) : Nat :=
  value ||| (1 <<< offset)

/-! ## struct pack/unpack helpers

`struct.pack('>H', n)` for `0 ≤ n < 0x10000`, big endian. -/

def u16be (n : Nat) : List Nat :=
  [n / 256, n % 256]

/-- `struct.unpack('>HH', l)`: fails unless `l` has exactly 4 bytes. -/
def unpack_HH (l : List Nat) : Option (Nat × Nat) :=
  if l.length = 4 then
    some (l.getD 0 0 * 256 + l.getD 1 0, l.getD 2 0 * 256 + l.getD 3 0)
  else none

/-- `struct.unpack('>HHB', l)`: fails unless `l` has exactly 5 bytes. -/
def unpack_HHB (l : List Nat) : Option (Nat × Nat × Nat) :=
  if l.length = 5 then
    some (l.getD 0 0 * 256 + l.getD 1 0,
          l.getD 2 0 * 256 + l.getD 3 0,
          l.getD 4 0)
  else none

/-- `struct.unpack('>HHHB', l)` for the 7-byte MBAP header. -/
def unpack_HHHB (l : List Nat) : Option (Nat × Nat × Nat × Nat) :=
  if l.length = 7 then
    some (l.getD 0 0 * 256 + l.getD 1 0,
          l.getD 2 0 * 256 + l.getD 3 0,
          l.getD 4 0 * 256 + l.getD 5 0,
          l.getD 6 0)
  else none

/-! ## DataBank (`server.py` lines 55-93)

Python addresses may be negative, so the address argument is `Int`;
each operation returns `none` exactly where the Python method returns
`None`.  A successful write returns the updated space (Python mutates
in place via slice assignment). -/

namespace DataBank

def get_bits (bits : List Bool) (address : Int) (number : Nat) :
    Option (List Bool) :=
  if 0 ≤ address ∧ address + number ≤ bits.length then
    some ((bits.drop address.toNat).take number)
  else none

def set_bits (bits : List Bool) (address : Int) (bit_list : List Bool) :
    Option (List Bool) :=
  if 0 ≤ address ∧ address + bit_list.length ≤ bits.length then
    some (bits.take address.toNat ++ bit_list ++
          bits.drop (address.toNat + bit_list.length))
  else none

def get_words (words : List Nat) (address : Int) (number : Nat) :
    Option (List Nat) :=
  if 0 ≤ address ∧ address + number ≤ words.length then
    some ((words.drop address.toNat).take number)
  else none

def set_words (words : List Nat) (address : Int) (word_list : List Nat) :
    Option (List Nat) :=
  if 0 ≤ address ∧ address + word_list.length ≤ words.length then
    some (words.take address.toNat ++ word_list ++
          words.drop (address.toNat + word_list.length))
  else none

/-- The bit space as it stands after a `set_bits` call: unchanged when
the call returned `None`. -/
def set_bits_state (bits : List Bool) (address : Int)
    (bit_list : List Bool) : List Bool :=
  (set_bits bits address bit_list).getD bits

/-- The word space as it stands after a `set_words` call. -/
def set_words_state (words : List Nat) (address : Int)
    (word_list : List Nat) : List Nat :=
  (set_words words address word_list).getD words

end DataBank

/-! ## Bit packing (`server.py` lines 128-141)

The read-coils reply loop: allocate `⌈count/8⌉` zero bytes, then for
each true bit `i` set bit `i % 8` of byte `i / 8`. -/

def pack_loop (bytes_l : List Nat) (i : Nat) (item : Bool) : List Nat :=
  if item then
    bytes_l.set (i / 8) (set_bit (bytes_l.getD (i / 8) 0) (i % 8))
  else bytes_l

def pack_fold : List Nat → Nat → List Bool → List Nat
  | bytes_l, _, [] => bytes_l
  | bytes_l, i, item :: rest => pack_fold (pack_loop bytes_l i item) (i + 1) rest

def pack_bits (bits_l : List Bool) : List Nat :=
  pack_fold
    (List.replicate
      (bits_l.length / 8 + (if bits_l.length % 8 ≠ 0 then 1 else 0)) 0)
    0 bits_l

/-! ## Bit unpacking (`server.py` lines 184-189)

The write-multiple-coils loop, expressed over the data bytes
(`rx_body[6:]`): bit `i` comes from bit `i % 8` of data byte `i / 8`. -/

def unpack_bits (data : List Nat) (count : Nat) : List Bool :=
  (List.range count).map (fun i => test_bit (data.getD (i / 8) 0) (i % 8))

/-! ## Request-payload loops of FC 0x0F and 0x10 over the raw body

These read straight from `rx_body` with the source's offsets and fail
(`struct.error`) when a 1- or 2-byte slice runs past the end. -/

def read_bits_loop (rx_body : List Nat) : Nat → Option (List Bool)
  | 0 => some []
  | n + 1 =>
    match read_bits_loop rx_body n with
    | none => none
    | some l =>
      match rx_body.get? (n / 8 + 6) with
      | some v => some (l ++ [test_bit v (n % 8)])
      | none => none

def read_words_loop (rx_body : List Nat) : Nat → Option (List Nat)
  | 0 => some []
  | n + 1 =>
    match read_words_loop rx_body n with
    | none => none
    | some l =>
      match rx_body.get? (n * 2 + 6), rx_body.get? (n * 2 + 7) with
      | some hi, some lo => some (l ++ [hi * 256 + lo])
      | _, _ => none

/-! ## The shared bank and the dispatcher (`server.py` lines 119-222) -/

structure Bank where
  bits : List Bool
  words : List Nat
deriving DecidableEq

def initBank : Bank :=
  { bits := List.replicate 0x10000 false, words := List.replicate 0x10000 0 }

/-- The `do modbus functions` block plus the exception fallback:
from the received PDU to the reply PDU (`tx_body`) and the updated
bank.  `none` models an uncaught `struct.error` (session dies without
a reply).  In the FC 0x0F guard, Python's true-division test
`byte_count >= b_count / 8` is written as the exactly equivalent
integer test `b_count ≤ 8 * byte_count`. -/
def modbus_reply (bank : Bank) (rx_bd_fc : Nat) (rx_body : List Nat) :
    Option (List Nat × Bank) :=
  if rx_bd_fc = READ_COILS ∨ rx_bd_fc = READ_DISCRETE_INPUTS then
    match unpack_HH (rx_body.drop 1) with
    | none => none
    | some (b_address, b_count) =>
      if 0x0001 ≤ b_count ∧ b_count ≤ 0x07D0 then
        match DataBank.get_bits bank.bits b_address b_count with
        | some bits_l =>
          if bits_l ≠ [] then
            let bytes_l := pack_bits bits_l
            some (rx_bd_fc :: bytes_l.length :: bytes_l, bank)
          else some ([rx_bd_fc + 0x80, EXP_DATA_ADDRESS], bank)
        | none => some ([rx_bd_fc + 0x80, EXP_DATA_ADDRESS], bank)
      else some ([rx_bd_fc + 0x80, EXP_DATA_VALUE], bank)
  else if rx_bd_fc = READ_HOLDING_REGISTERS ∨ rx_bd_fc = READ_INPUT_REGISTERS then
    match unpack_HH (rx_body.drop 1) with
    | none => none
    | some (w_address, w_count) =>
      if 0x0001 ≤ w_count ∧ w_count ≤ 0x007D then
        match DataBank.get_words bank.words w_address w_count with
        | some words_l =>
          if words_l ≠ [] then
            some (rx_bd_fc :: (w_count * 2) :: (words_l.map u16be).flatten, bank)
          else some ([rx_bd_fc + 0x80, EXP_DATA_ADDRESS], bank)
        | none => some ([rx_bd_fc + 0x80, EXP_DATA_ADDRESS], bank)
      else some ([rx_bd_fc + 0x80, EXP_DATA_VALUE], bank)
  else if rx_bd_fc = WRITE_SINGLE_COIL then
    match unpack_HH (rx_body.drop 1) with
    | none => none
    | some (b_address, b_value) =>
      let f_b_value := decide (b_value = 0xFF00)
      match DataBank.set_bits bank.bits b_address [f_b_value] with
      | some bits2 =>
        some (rx_bd_fc :: (u16be b_address ++ u16be b_value),
              { bank with bits := bits2 })
      | none => some ([rx_bd_fc + 0x80, EXP_DATA_ADDRESS], bank)
  else if rx_bd_fc = WRITE_SINGLE_REGISTER then
    match unpack_HH (rx_body.drop 1) with
    | none => none
    | some (w_address, w_value) =>
      match DataBank.set_words bank.words w_address [w_value] with
      | some words2 =>
        some (rx_bd_fc :: (u16be w_address ++ u16be w_value),
              { bank with words := words2 })
      | none => some ([rx_bd_fc + 0x80, EXP_DATA_ADDRESS], bank)
  else if rx_bd_fc = WRITE_MULTIPLE_COILS then
    match unpack_HHB ((rx_body.drop 1).take 5) with
    | none => none
    | some (b_address, b_count, byte_count) =>
      if (0x0001 ≤ b_count ∧ b_count ≤ 0x07B0) ∧ b_count ≤ 8 * byte_count then
        match read_bits_loop rx_body b_count with
        | none => none
        | some bits_l =>
          match DataBank.set_bits bank.bits b_address bits_l with
          | some bits2 =>
            some (rx_bd_fc :: (u16be b_address ++ u16be b_count),
                  { bank with bits := bits2 })
          | none => some ([rx_bd_fc + 0x80, EXP_DATA_ADDRESS], bank)
      else some ([rx_bd_fc + 0x80, EXP_DATA_VALUE], bank)
  else if rx_bd_fc = WRITE_MULTIPLE_REGISTERS then
    match unpack_HHB ((rx_body.drop 1).take 5) with
    | none => none
    | some (w_address, w_count, byte_count) =>
      if (0x0001 ≤ w_count ∧ w_count ≤ 0x007B) ∧ byte_count = w_count * 2 then
        match read_words_loop rx_body w_count with
        | none => none
        | some words_l =>
          match DataBank.set_words bank.words w_address words_l with
          | some words2 =>
            some (rx_bd_fc :: (u16be w_address ++ u16be w_count),
                  { bank with words := words2 })
          | none => some ([rx_bd_fc + 0x80, EXP_DATA_ADDRESS], bank)
      else some ([rx_bd_fc + 0x80, EXP_DATA_VALUE], bank)
  else some ([rx_bd_fc + 0x80, EXP_ILLEGAL_FUNCTION], bank)

/-- One iteration of the `ModbusService.handle` loop over an incoming
byte stream: `none` models `break` / an uncaught exception (the
connection closes with nothing sent); `some (tx, bank2, rest)` models
sending `tx` and looping with `rest` still buffered. -/
def handle_step (bank : Bank) (stream : List Nat) :
    Option (List Nat × Bank × List Nat) :=
  let rx_head := stream.take 7
  if rx_head ≠ [] ∧ rx_head.length = 7 then
    match unpack_HHHB rx_head with
    | none => none
    | some (rx_hd_tr_id, rx_hd_pr_id, rx_hd_length, rx_hd_unit_id) =>
      if rx_hd_pr_id = 0 ∧ 2 < rx_hd_length ∧ rx_hd_length < 256 then
        let rx_body := (stream.drop 7).take (rx_hd_length - 1)
        if rx_body ≠ [] ∧ rx_body.length = rx_hd_length - 1 then
          let rx_bd_fc := rx_body.headD 0
          if rx_bd_fc ≤ 0x7F then
            match modbus_reply bank rx_bd_fc rx_body with
            | none => none
            | some (tx_body, bank2) =>
              some (u16be rx_hd_tr_id ++ u16be rx_hd_pr_id ++
                    u16be (tx_body.length + 1) ++ [rx_hd_unit_id] ++ tx_body,
                    bank2, (stream.drop 7).drop (rx_hd_length - 1))
          else none
        else none
      else none
  else none

/-- Well-formedness of the shared bank: both spaces have 65536 cells
and every word is an unsigned 16-bit value. -/
def WFBank (bank : Bank) : Prop :=
  bank.bits.length = 0x10000 ∧ bank.words.length = 0x10000 ∧
    ∀ w ∈ bank.words, w < 0x10000

/-- Banks reachable from the initial state through handled requests;
the incoming stream consists of bytes. -/
inductive Reachable : Bank → Prop
  | init : Reachable initBank
  | step (b : Bank) (s tx rest : List Nat) (b2 : Bank) :
      Reachable b → (∀ x ∈ s, x < 256) →
      handle_step b s = some (tx, b2, rest) → Reachable b2

/-! ## Concrete frames for the end-to-end scenario of §8 -/

def c1_request : List Nat :=
  [0x00, 0x01, 0x00, 0x00, 0x00, 0x06, 0xFF, 0x01, 0x00, 0x00, 0x00, 0x03]

/-- The response bytes the specification's scenario 1 expects. -/
def c1_spec_response : List Nat :=
  [0x00, 0x01, 0x00, 0x00, 0x00, 0x05, 0xFF, 0x01, 0x01, 0x00]

/-- The response bytes the code actually produces (length field 4). -/
def c1_code_response : List Nat :=
  [0x00, 0x01, 0x00, 0x00, 0x00, 0x04, 0xFF, 0x01, 0x01, 0x00]

end PyModbus

/-! # Theorems -/

namespace PyModbus

/-! ## Helper lemmas about the initial bank and the C1 frame -/

theorem initBank_bits_eq : initBank.bits = List.replicate 0x10000 false := rfl

theorem initBank_words_eq : initBank.words = List.replicate 0x10000 0 := rfl

theorem initBank_bits_length : initBank.bits.length = 0x10000 := by
  rw [initBank_bits_eq, List.length_replicate]

theorem initBank_words_length : initBank.words.length = 0x10000 := by
  rw [initBank_words_eq, List.length_replicate]

theorem initBank_WF : WFBank initBank := by
  refine ⟨initBank_bits_length, initBank_words_length, ?_⟩
  intro w hw
  rw [initBank_words_eq] at hw
  rw [List.eq_of_mem_replicate hw]
  norm_num

theorem get_bits_initBank (a : Int) (n : Nat) (ha : 0 ≤ a) (h : a + n ≤ 0x10000) :
    DataBank.get_bits initBank.bits a n = some (List.replicate n false) := by
  unfold DataBank.get_bits
  rw [if_pos]
  · rw [initBank_bits_eq, List.drop_replicate, List.take_replicate]
    have hmin : n ⊓ (0x10000 - a.toNat) = n := by omega
    rw [hmin]
  · rw [initBank_bits_length]
    refine ⟨ha, ?_⟩
    push_cast
    omega

theorem handle_step_c1_shape (bank : Bank) :
    handle_step bank c1_request =
      match modbus_reply bank 1 [1, 0, 0, 0, 3] with
      | none => none
      | some (tx_body, bank2) =>
        some (u16be 1 ++ u16be 0 ++ u16be (tx_body.length + 1) ++ [255] ++ tx_body,
              bank2, []) := by
  rfl

theorem modbus_reply_c1_shape (bank : Bank) :
    modbus_reply bank 1 [1, 0, 0, 0, 3] =
      match DataBank.get_bits bank.bits 0 3 with
      | some bits_l =>
        if bits_l ≠ [] then
          some (1 :: (pack_bits bits_l).length :: pack_bits bits_l, bank)
        else some ([0x81, EXP_DATA_ADDRESS], bank)
      | none => some ([0x81, EXP_DATA_ADDRESS], bank) := by
  rfl

theorem handle_step_c1 :
    handle_step initBank c1_request = some (c1_code_response, initBank, []) := by
  have hg : DataBank.get_bits initBank.bits (0 : Int) 3 =
      some (List.replicate 3 false) :=
    get_bits_initBank 0 3 (by norm_num) (by norm_num)
  rw [handle_step_c1_shape, modbus_reply_c1_shape, hg]
  rfl

end PyModbus

namespace PyModbus

/-! ## C1: end-to-end read of 3 coils from the all-false initial state -/

/-- C1 counterexample: on the frame `00 01 00 00 00 06 FF 01 00 00 00 03`
from the all-false initial state, the server does NOT send the bytes
`00 01 00 00 00 05 FF 01 01 00` that the specification's scenario 1
expects (the MBAP length field the code computes is 4, not 5). -/
theorem C1_counterexample :
    (handle_step initBank c1_request).map Prod.fst ≠ some c1_spec_response := by
  rw [handle_step_c1]
  decide

/-- C1 (amended): on the frame `00 01 00 00 00 06 FF 01 00 00 00 03` from
the all-false initial state, the session sends exactly
`00 01 00 00 00 04 FF 01 01 00` (MBAP length field 4 = PDU length 3 plus
one), leaves the bank unchanged, and consumes the whole frame. -/
theorem C1_read_three_coils :
    handle_step initBank c1_request = some (c1_code_response, initBank, []) :=
  handle_step_c1

/-! ## C2: the reply MBAP header echoes the request header -/

theorem unpack_HHHB_fields (l : List Nat) (tr pr ln uid : Nat)
    (h : unpack_HHHB l = some (tr, pr, ln, uid)) :
    l.length = 7 ∧ tr = l.getD 0 0 * 256 + l.getD 1 0 ∧
      pr = l.getD 2 0 * 256 + l.getD 3 0 ∧
      ln = l.getD 4 0 * 256 + l.getD 5 0 ∧ uid = l.getD 6 0 := by
  unfold unpack_HHHB at h
  split at h
  · injection h with h2
    injection h2 with h3 h4
    injection h4 with h5 h6
    injection h6 with h7 h8
    exact ⟨by assumption, h3.symm, h5.symm, h7.symm, h8.symm⟩
  · cases h

theorem getD_take (l : List Nat) (n i : Nat) (hi : i < n) :
    (l.take n).getD i 0 = l.getD i 0 := by
  rw [List.getD_eq_getElem?_getD, List.getD_eq_getElem?_getD,
      List.getElem?_take, if_pos hi]

/-- C2: whenever a request round reaches the reply stage (the session
handler returns a frame rather than closing), the sent frame is the
echoed transaction id, protocol id and unit id from the request header
around a length field equal to the reply PDU's length plus one. -/
theorem C2_header_echo (bank bank2 : Bank) (stream tx rest : List Nat)
    (hwf : WFBank bank)
    (h : handle_step bank stream = some (tx, bank2, rest)) :
    ∃ pdu : List Nat,
      tx = u16be (stream.getD 0 0 * 256 + stream.getD 1 0) ++
           u16be (stream.getD 2 0 * 256 + stream.getD 3 0) ++
           u16be (pdu.length + 1) ++ [stream.getD 6 0] ++ pdu := by
  dsimp only [handle_step] at h
  split at h
  case isFalse => cases h
  case isTrue hhead =>
    split at h
    case h_1 => cases h
    case h_2 tr pr ln uid heq =>
      obtain ⟨h7, htr, hpr, hln, huid⟩ := unpack_HHHB_fields _ _ _ _ _ heq
      split at h
      case isFalse => cases h
      case isTrue hhdr =>
        split at h
        case isFalse => cases h
        case isTrue hbody =>
          split at h
          case isFalse => cases h
          case isTrue hfc =>
            split at h
            case h_1 => cases h
            case h_2 tx_body bank3 hm =>
              injection h with h1
              injection h1 with h2 h3
              refine ⟨tx_body, ?_⟩
              rw [← h2, htr, hpr, huid]
              rw [getD_take _ _ _ (by norm_num), getD_take _ _ _ (by norm_num),
                  getD_take _ _ _ (by norm_num), getD_take _ _ _ (by norm_num),
                  getD_take _ _ _ (by norm_num)]

/-- C2 witness: the scenario-1 exchange instantiates the header-echo
theorem. -/
theorem C2_header_echo_witness :
    ∃ pdu : List Nat,
      c1_code_response =
        u16be (c1_request.getD 0 0 * 256 + c1_request.getD 1 0) ++
        u16be (c1_request.getD 2 0 * 256 + c1_request.getD 3 0) ++
        u16be (pdu.length + 1) ++ [c1_request.getD 6 0] ++ pdu :=
  C2_header_echo initBank initBank c1_request c1_code_response []
    initBank_WF handle_step_c1

end PyModbus
namespace PyModbus

theorem getD_drop (l : List Nat) (n i : Nat) :
    (l.drop n).getD i 0 = l.getD (n + i) 0 := by
  rw [List.getD_eq_getElem?_getD, List.getD_eq_getElem?_getD, List.getElem?_drop]

theorem headD_eq_getD (l : List Nat) : l.headD 0 = l.getD 0 0 := by
  cases l <;> rfl

/-- C4: any framing violation (short header, protocol id not 0, length
field outside 2 < length < 256, short body, or function code above 0x7F)
makes the session close the connection with no bytes sent. -/
theorem C4_framing_close (bank : Bank) (stream : List Nat)
    (h : stream.length < 7 ∨
         stream.getD 2 0 * 256 + stream.getD 3 0 ≠ 0 ∨
         ¬(2 < stream.getD 4 0 * 256 + stream.getD 5 0 ∧
             stream.getD 4 0 * 256 + stream.getD 5 0 < 256) ∨
         stream.length < 7 + (stream.getD 4 0 * 256 + stream.getD 5 0 - 1) ∨
         0x7F < stream.getD 7 0) :
    handle_step bank stream = none := by
  dsimp only [handle_step]
  split
  case isFalse => rfl
  case isTrue hhead =>
    have hlen7 : 7 ≤ stream.length := by
      rcases hhead with ⟨-, hlen⟩
      rw [List.length_take] at hlen
      omega
    split
    case h_1 => rfl
    case h_2 tr pr ln uid heq =>
      obtain ⟨h7, htr, hpr, hln, huid⟩ := unpack_HHHB_fields _ _ _ _ _ heq
      rw [getD_take _ _ _ (by norm_num), getD_take _ _ _ (by norm_num)] at hpr
      rw [getD_take _ _ _ (by norm_num), getD_take _ _ _ (by norm_num)] at hln
      split
      case isFalse => rfl
      case isTrue hhdr =>
        split
        case isFalse => rfl
        case isTrue hbody =>
          split
          case isFalse => rfl
          case isTrue hfc =>
            exfalso
            obtain ⟨hpr0, hln2, hln256⟩ : pr = 0 ∧ 2 < ln ∧ ln < 256 := hhdr
            obtain ⟨hne, hblen⟩ := hbody
            rw [List.length_take, List.length_drop] at hblen
            have hbig : 7 + (ln - 1) ≤ stream.length := by omega
            have hfc7 : ((stream.drop 7).take (ln - 1)).headD 0 = stream.getD 7 0 := by
              rw [headD_eq_getD, getD_take _ _ _ (by omega), getD_drop]
            rw [hfc7] at hfc
            rcases h with h | h | h | h | h
            · omega
            · exact h (hpr.symm.trans hpr0) |>.elim
            · exact (h (hln ▸ ⟨hln2, hln256⟩)).elim
            · rw [← hln] at h; omega
            · omega

end PyModbus

namespace PyModbus

theorem unpack_HHHB_quad (tr pr ln uid : Nat) :
    unpack_HHHB (u16be tr ++ u16be pr ++ u16be ln ++ [uid]) =
      some (tr, pr, ln, uid) := by
  simp only [u16be, List.cons_append, List.nil_append, unpack_HHHB,
    List.length_cons, List.length_nil, List.getD_cons_zero, List.getD_cons_succ]
  rw [if_pos trivial]
  have e1 : tr / 256 * 256 + tr % 256 = tr := by omega
  have e2 : pr / 256 * 256 + pr % 256 = pr := by omega
  have e3 : ln / 256 * 256 + ln % 256 = ln := by omega
  rw [e1, e2, e3]

theorem modbus_reply_short (bank : Bank) (fc : Nat) (rx_body : List Nat)
    (hfc : fc = 1 ∨ fc = 2 ∨ fc = 3 ∨ fc = 4 ∨ fc = 5 ∨ fc = 6)
    (hlen : (rx_body.drop 1).length ≠ 4) :
    modbus_reply bank fc rx_body = none := by
  have hHH : unpack_HH rx_body.tail = none := by
    unfold unpack_HH
    rw [← List.drop_one, if_neg hlen]
  rcases hfc with rfl | rfl | rfl | rfl | rfl | rfl <;>
    simp [modbus_reply, hHH, READ_COILS, READ_DISCRETE_INPUTS,
      READ_HOLDING_REGISTERS, READ_INPUT_REGISTERS, WRITE_SINGLE_COIL,
      WRITE_SINGLE_REGISTER]

/-- C9: a frame whose header passes validation and whose function code
is one of 0x01-0x06, but whose PDU body is not exactly 5 bytes (function
code plus two u16 fields), makes the fixed-size field decode fail and
the session terminate without sending any response. -/
theorem C9_pdu_size_mismatch (bank : Bank) (tr uid fc : Nat)
    (body_rest : List Nat)
    (hfc : fc = 1 ∨ fc = 2 ∨ fc = 3 ∨ fc = 4 ∨ fc = 5 ∨ fc = 6)
    (h1 : 1 ≤ body_rest.length) (h2 : body_rest.length ≤ 253)
    (hne : body_rest.length ≠ 4) :
    handle_step bank
      ((u16be tr ++ u16be 0 ++ u16be (body_rest.length + 2) ++ [uid]) ++
        fc :: body_rest) = none := by
  have hhdr7 : (u16be tr ++ u16be 0 ++ u16be (body_rest.length + 2) ++ [uid]).length = 7 := by
    simp [u16be]
  have hbody : (fc :: body_rest).take (body_rest.length + 2 - 1) = fc :: body_rest := by
    have h : body_rest.length + 2 - 1 = (fc :: body_rest).length := by simp
    rw [h, List.take_length]
  have hfc127 : fc ≤ 127 := by rcases hfc with rfl|rfl|rfl|rfl|rfl|rfl <;> norm_num
  have hmr : modbus_reply bank ((fc :: body_rest).headD 0) (fc :: body_rest) = none := by
    rw [show (fc :: body_rest).headD 0 = fc from rfl]
    refine modbus_reply_short bank fc (fc :: body_rest) hfc ?_
    simpa using hne
  dsimp only [handle_step]
  rw [List.take_left' hhdr7, List.drop_left' hhdr7]
  rw [if_pos ⟨by simp [u16be], hhdr7⟩]
  simp only [unpack_HHHB_quad]
  rw [if_pos ⟨trivial, by omega, by omega⟩]
  rw [hbody]
  rw [if_pos ⟨List.cons_ne_nil fc body_rest, by simp⟩]
  rw [if_pos (show (fc :: body_rest).headD 0 ≤ 127 from hfc127)]
  simp only [hmr]

end PyModbus

namespace PyModbus

/-- C4 witness: a one-byte (truncated) header closes the session. -/
theorem C4_framing_close_witness :
    ([0] : List Nat).length < 7 ∧ handle_step initBank [0] = none :=
  ⟨by norm_num, C4_framing_close initBank [0] (Or.inl (by norm_num))⟩

/-- C9 witness: FC 0x03 with a 3-byte PDU (body rest `00 00`) kills the
session silently. -/
theorem C9_pdu_size_mismatch_witness :
    ([0, 0] : List Nat).length ≠ 4 ∧
      handle_step initBank
        ((u16be 0 ++ u16be 0 ++ u16be (([0, 0] : List Nat).length + 2) ++ [1]) ++
          3 :: [0, 0]) = none :=
  ⟨by norm_num,
   C9_pdu_size_mismatch initBank 0 1 3 [0, 0]
     (Or.inr (Or.inr (Or.inl rfl))) (by norm_num) (by norm_num) (by norm_num)⟩

end PyModbus
namespace PyModbus

/-- C5: every Data Bank operation whose address range runs past 65536
fails (returns the Python `None`) and leaves both spaces unchanged. -/
theorem C5_range_overflow (bits : List Bool) (words : List Nat)
    (addr : Int) (n : Nat) (bl : List Bool) (wl : List Nat)
    (hbits : bits.length = 0x10000) (hwords : words.length = 0x10000)
    (hbl : bl.length = n) (hwl : wl.length = n)
    (h : 0x10000 < addr + n) :
    DataBank.get_bits bits addr n = none ∧
      DataBank.set_bits bits addr bl = none ∧
      DataBank.get_words words addr n = none ∧
      DataBank.set_words words addr wl = none ∧
      DataBank.set_bits_state bits addr bl = bits ∧
      DataBank.set_words_state words addr wl = words := by
  have hgb : DataBank.get_bits bits addr n = none := by
    unfold DataBank.get_bits
    rw [if_neg]
    rw [hbits]
    push_cast
    omega
  have hsb : DataBank.set_bits bits addr bl = none := by
    unfold DataBank.set_bits
    rw [if_neg]
    rw [hbits, hbl]
    push_cast
    omega
  have hgw : DataBank.get_words words addr n = none := by
    unfold DataBank.get_words
    rw [if_neg]
    rw [hwords]
    push_cast
    omega
  have hsw : DataBank.set_words words addr wl = none := by
    unfold DataBank.set_words
    rw [if_neg]
    rw [hwords, hwl]
    push_cast
    omega
  refine ⟨hgb, hsb, hgw, hsw, ?_, ?_⟩
  · unfold DataBank.set_bits_state
    rw [hsb]
    rfl
  · unfold DataBank.set_words_state
    rw [hsw]
    rfl

/-- C5 witness: reading 2 bits starting at 65535 fails. -/
theorem C5_range_overflow_witness :
    (0x10000 : Int) < 65535 + 2 ∧
      DataBank.get_bits (List.replicate 0x10000 false) 65535 2 = none := by
  refine ⟨by norm_num, ?_⟩
  have h := C5_range_overflow (List.replicate 0x10000 false)
    (List.replicate 0x10000 0) 65535 2 [true, true] [1, 2]
    (List.length_replicate _ _) (List.length_replicate _ _) rfl rfl (by norm_num)
  exact h.1

end PyModbus
namespace PyModbus

theorem unpack_HH_pair (a b : Nat) :
    unpack_HH (u16be a ++ u16be b) = some (a, b) := by
  simp only [u16be, List.cons_append, List.nil_append, unpack_HH,
    List.length_cons, List.length_nil, List.getD_cons_zero, List.getD_cons_succ,
    if_true]
  have e1 : a / 256 * 256 + a % 256 = a := by omega
  have e2 : b / 256 * 256 + b % 256 = b := by omega
  rw [e1, e2]

/-- C7: bit-read requests (FC 0x01/0x02) with a count outside [1, 2000]
and register-read requests (FC 0x03/0x04) with a count outside [1, 125]
draw exception 0x03 ILLEGAL_DATA_VALUE, with the bank untouched.  A u16
count field is outside the range exactly when it is 0 or above the
bound. -/
theorem C7_read_count_range (bank : Bank) (fc addr count : Nat)
    (h : ((fc = 0x01 ∨ fc = 0x02) ∧ (count = 0 ∨ 2000 < count)) ∨
         ((fc = 0x03 ∨ fc = 0x04) ∧ (count = 0 ∨ 125 < count))) :
    modbus_reply bank fc (fc :: (u16be addr ++ u16be count)) =
      some ([fc + 0x80, EXP_DATA_VALUE], bank) := by
  have hd : (fc :: (u16be addr ++ u16be count)).drop 1 =
      u16be addr ++ u16be count := rfl
  rcases h with ⟨hfc, hcnt⟩ | ⟨hfc, hcnt⟩ <;> rcases hfc with rfl | rfl <;>
    simp only [modbus_reply, READ_COILS, READ_DISCRETE_INPUTS,
      READ_HOLDING_REGISTERS, READ_INPUT_REGISTERS, hd, unpack_HH_pair] <;>
    norm_num <;>
    omega

end PyModbus
namespace PyModbus

theorem unpack_HHB_triple (a b c : Nat) :
    unpack_HHB (u16be a ++ u16be b ++ [c]) = some (a, b, c) := by
  simp only [u16be, List.cons_append, List.nil_append, unpack_HHB,
    List.length_cons, List.length_nil, List.getD_cons_zero, List.getD_cons_succ,
    if_true]
  have e1 : a / 256 * 256 + a % 256 = a := by omega
  have e2 : b / 256 * 256 + b % 256 = b := by omega
  rw [e1, e2]

/-- C3: a write-multiple-coils request (FC 0x0F) with 1 ≤ count ≤ 1968
whose byte_count field is below ⌈count/8⌉ draws exception 0x03
ILLEGAL_DATA_VALUE and performs no write (the returned bank is the input
bank). -/
theorem C3_write_coils_byte_count (bank : Bank)
    (addr count byte_count : Nat) (data : List Nat)
    (h1 : 1 ≤ count) (h2 : count ≤ 1968)
    (hbc : byte_count < (count + 7) / 8) :
    modbus_reply bank 0x0F
        (0x0F :: (u16be addr ++ u16be count ++ byte_count :: data)) =
      some ([0x0F + 0x80, EXP_DATA_VALUE], bank) := by
  have hslice : (((0x0F : Nat) :: (u16be addr ++ u16be count ++ byte_count :: data)).drop 1).take 5 =
      u16be addr ++ u16be count ++ [byte_count] := rfl
  simp only [modbus_reply, READ_COILS, READ_DISCRETE_INPUTS,
    READ_HOLDING_REGISTERS, READ_INPUT_REGISTERS, WRITE_SINGLE_COIL,
    WRITE_SINGLE_REGISTER, WRITE_MULTIPLE_COILS, WRITE_MULTIPLE_REGISTERS,
    hslice, unpack_HHB_triple]
  norm_num
  omega

end PyModbus
namespace PyModbus

/-- C8: a write-single-coil request (FC 0x05) with any 16-bit value and
an in-range address is accepted, echoes function code, address and value
verbatim, and sets the target bit to true exactly when the value is
0xFF00. -/
theorem C8_write_single_coil (bank : Bank) (addr value : Nat)
    (haddr : addr < 0x10000) (hlen : bank.bits.length = 0x10000) :
    ∃ bits2 : List Bool,
      modbus_reply bank 0x05 (0x05 :: (u16be addr ++ u16be value)) =
        some (0x05 :: (u16be addr ++ u16be value), { bank with bits := bits2 }) ∧
      (bits2.getD addr false = true ↔ value = 0xFF00) := by
  have hd : ((0x05 : Nat) :: (u16be addr ++ u16be value)).drop 1 =
      u16be addr ++ u16be value := rfl
  have hset : DataBank.set_bits bank.bits addr [decide (value = 0xFF00)] =
      some (bank.bits.take addr ++ decide (value = 0xFF00) ::
            bank.bits.drop (addr + 1)) := by
    unfold DataBank.set_bits
    rw [if_pos]
    · simp
    · rw [hlen]
      refine ⟨by positivity, ?_⟩
      simp only [List.length_cons, List.length_nil]
      push_cast
      omega
  have hlt : (bank.bits.take addr).length = addr := by
    rw [List.length_take]
    omega
  refine ⟨bank.bits.take addr ++ decide (value = 0xFF00) ::
          bank.bits.drop (addr + 1), ?_, ?_⟩
  · simp only [modbus_reply, READ_COILS, READ_DISCRETE_INPUTS,
      READ_HOLDING_REGISTERS, READ_INPUT_REGISTERS, WRITE_SINGLE_COIL,
      hd, unpack_HH_pair]
    norm_num
    rw [hset]
  · rw [List.getD_eq_getElem?_getD,
        List.getElem?_append_right (Nat.le_of_eq hlt), hlt, Nat.sub_self,
        List.getElem?_cons_zero]
    simp

end PyModbus

namespace PyModbus

/-- C7 witness: FC 0x01 with count 0 yields exception 0x03. -/
theorem C7_read_count_range_witness :
    ((1 = 0x01 ∨ 1 = 0x02) ∧ ((0 : Nat) = 0 ∨ 2000 < 0)) ∧
      modbus_reply initBank 1 (1 :: (u16be 0 ++ u16be 0)) =
        some ([1 + 0x80, EXP_DATA_VALUE], initBank) :=
  ⟨⟨Or.inl rfl, Or.inl rfl⟩,
   C7_read_count_range initBank 1 0 0 (Or.inl ⟨Or.inl rfl, Or.inl rfl⟩)⟩

/-- C3 witness: FC 0x0F with count 9 and byte_count 1 (< ⌈9/8⌉ = 2)
yields exception 0x03. -/
theorem C3_write_coils_byte_count_witness :
    1 ≤ 9 ∧ (9 : Nat) ≤ 1968 ∧ 1 < ((9 : Nat) + 7) / 8 ∧
      modbus_reply initBank 0x0F
          (0x0F :: (u16be 0 ++ u16be 9 ++ 1 :: [0xFF])) =
        some ([0x0F + 0x80, EXP_DATA_VALUE], initBank) :=
  ⟨by norm_num, by norm_num, by norm_num,
   C3_write_coils_byte_count initBank 0 9 1 [0xFF]
     (by norm_num) (by norm_num) (by norm_num)⟩

/-- C8 witness: writing value 0xFF00 at address 0 of the initial bank. -/
theorem C8_write_single_coil_witness :
    ∃ bits2 : List Bool,
      modbus_reply initBank 0x05 (0x05 :: (u16be 0 ++ u16be 0xFF00)) =
        some (0x05 :: (u16be 0 ++ u16be 0xFF00), { initBank with bits := bits2 }) ∧
      (bits2.getD 0 false = true ↔ (0xFF00 : Nat) = 0xFF00) :=
  C8_write_single_coil initBank 0 0xFF00 (by norm_num) initBank_bits_length

end PyModbus
namespace PyModbus

theorem test_bit_eq_testBit (v o : Nat) : test_bit v o = v.testBit o := by
  rw [test_bit, Nat.one_shiftLeft, Nat.and_two_pow]
  cases h : v.testBit o <;> simp [h]

theorem set_bit_testBit (v o m : Nat) :
    (set_bit v o).testBit m = (v.testBit m || decide (o = m)) := by
  rw [set_bit, Nat.one_shiftLeft, Nat.testBit_lor, Nat.testBit_two_pow]

theorem pack_loop_length (acc : List Nat) (i : Nat) (item : Bool) :
    (pack_loop acc i item).length = acc.length := by
  unfold pack_loop
  split <;> simp

theorem pack_fold_length (bits : List Bool) :
    ∀ (s : Nat) (acc : List Nat), (pack_fold acc s bits).length = acc.length := by
  induction bits with
  | nil => intro s acc; rfl
  | cons item rest ih =>
    intro s acc
    rw [show pack_fold acc s (item :: rest) =
        pack_fold (pack_loop acc s item) (s + 1) rest from rfl,
      ih, pack_loop_length]

theorem getD_set (l : List Nat) (i j a : Nat) :
    (l.set i a).getD j 0 =
      if i = j ∧ i < l.length then a else l.getD j 0 := by
  rw [List.getD_eq_getElem?_getD, List.getD_eq_getElem?_getD, List.getElem?_set]
  by_cases hij : i = j
  · subst hij
    by_cases hlen : i < l.length
    · simp [hlen]
    · have hj : l[i]? = none := by
        rw [List.getElem?_eq_none]
        omega
      simp [hlen, hj]
  · simp [hij]

end PyModbus
namespace PyModbus

theorem pack_fold_testBit (bits : List Bool) :
    ∀ (s : Nat) (acc : List Nat) (j m : Nat),
      (((pack_fold acc s bits).getD j 0).testBit m = true ↔
        ((acc.getD j 0).testBit m = true ∨
          (j < acc.length ∧ m < 8 ∧
            ∃ k, k < bits.length ∧ bits.getD k false = true ∧
              s + k = 8 * j + m))) := by
  induction bits with
  | nil =>
    intro s acc j m
    simp [pack_fold]
  | cons item rest ih =>
    intro s acc j m
    rw [show pack_fold acc s (item :: rest) =
        pack_fold (pack_loop acc s item) (s + 1) rest from rfl]
    rw [ih (s + 1) (pack_loop acc s item) j m, pack_loop_length]
    cases item with
    | false =>
      rw [show pack_loop acc s false = acc from rfl]
      constructor
      · rintro (hb | ⟨hj, hm, k, hk, hget, hsk⟩)
        · exact Or.inl hb
        · refine Or.inr ⟨hj, hm, k + 1, by simpa using hk, ?_, by omega⟩
          simpa using hget
      · rintro (hb | ⟨hj, hm, k, hk, hget, hsk⟩)
        · exact Or.inl hb
        · rcases k with _ | k'
          · simp at hget
          · refine Or.inr ⟨hj, hm, k', by simpa using hk, ?_, by omega⟩
            simpa using hget
    | true =>
      rw [show pack_loop acc s true =
          acc.set (s / 8) (set_bit (acc.getD (s / 8) 0) (s % 8)) from rfl]
      rw [getD_set]
      by_cases hc : s / 8 = j ∧ s / 8 < acc.length
      · obtain ⟨hj8, hlt8⟩ := hc
        rw [if_pos ⟨hj8, hlt8⟩, set_bit_testBit]
        simp only [Bool.or_eq_true, decide_eq_true_eq]
        constructor
        · rintro ((hb | hm8) | ⟨hj, hm, k, hk, hget, hsk⟩)
          · exact Or.inl (by rw [hj8] at hb; exact hb)
          · refine Or.inr ⟨by omega, by omega, 0, by simp, by simp, by omega⟩
          · refine Or.inr ⟨hj, hm, k + 1, by simpa using hk, by simpa using hget, by omega⟩
        · rintro (hb | ⟨hj, hm, k, hk, hget, hsk⟩)
          · exact Or.inl (Or.inl (by rw [hj8]; exact hb))
          · rcases k with _ | k'
            · exact Or.inl (Or.inr (by omega))
            · refine Or.inr ⟨hj, hm, k', by simpa using hk, by simpa using hget, by omega⟩
      · rw [if_neg hc]
        constructor
        · rintro (hb | ⟨hj, hm, k, hk, hget, hsk⟩)
          · exact Or.inl hb
          · refine Or.inr ⟨hj, hm, k + 1, by simpa using hk, by simpa using hget, by omega⟩
        · rintro (hb | ⟨hj, hm, k, hk, hget, hsk⟩)
          · exact Or.inl hb
          · rcases k with _ | k'
            · exfalso
              apply hc
              constructor <;> omega
            · refine Or.inr ⟨hj, hm, k', by simpa using hk, by simpa using hget, by omega⟩

end PyModbus
namespace PyModbus

theorem unpack_bits_length (data : List Nat) (count : Nat) :
    (unpack_bits data count).length = count := by
  simp [unpack_bits]

theorem unpack_bits_getD (data : List Nat) (count k : Nat) (hk : k < count) :
    (unpack_bits data count).getD k false =
      test_bit (data.getD (k / 8) 0) (k % 8) := by
  rw [unpack_bits, List.getD_eq_getElem?_getD, List.getElem?_map,
      List.getElem?_range hk]
  rfl

theorem getD_replicate_zero (L j : Nat) :
    (List.replicate L (0 : Nat)).getD j 0 = 0 := by
  rw [List.getD_eq_getElem?_getD, List.getElem?_replicate]
  split <;> rfl

/-- C6: bit-packing round trip.  For any count ≥ 1 and any byte
sequence of length ⌈count/8⌉ whose bits at positions ≥ count are zero,
unpacking count bits LSB-first (bit i from bit i mod 8 of byte i / 8)
and re-packing them with the reply encoder yields the original bytes. -/
theorem C6_pack_unpack_roundtrip (count : Nat) (data : List Nat)
    (hc : 1 ≤ count)
    (hlen : data.length = (count + 7) / 8)
    (hbytes : ∀ b ∈ data, b < 256)
    (htrail : ∀ i, count ≤ i → test_bit (data.getD (i / 8) 0) (i % 8) = false) :
    pack_bits (unpack_bits data count) = data := by
  have hL : count / 8 + (if count % 8 ≠ 0 then 1 else 0) = (count + 7) / 8 := by
    split_ifs <;> omega
  have hplen : (pack_bits (unpack_bits data count)).length = data.length := by
    rw [pack_bits, pack_fold_length, List.length_replicate, unpack_bits_length,
        hL, hlen]
  apply List.ext_getElem hplen
  intro j hj1 hj2
  rw [← List.getD_eq_getElem _ 0 hj1, ← List.getD_eq_getElem _ 0 hj2]
  have hjd : j < data.length := hj2
  apply Nat.eq_of_testBit_eq
  intro m
  have hdiv : ∀ m', m' < 8 → (8 * j + m') / 8 = j := by intro m' hm'; omega
  have hmod : ∀ m', m' < 8 → (8 * j + m') % 8 = m' := by intro m' hm'; omega
  have hpack : (((pack_bits (unpack_bits data count)).getD j 0).testBit m = true ↔
      (m < 8 ∧ 8 * j + m < count ∧ (data.getD j 0).testBit m = true)) := by
    rw [pack_bits, pack_fold_testBit, List.length_replicate, unpack_bits_length]
    constructor
    · rintro (h0 | ⟨hjL, hm, k, hk, hget, hk8⟩)
      · rw [getD_replicate_zero, Nat.zero_testBit] at h0
        cases h0
      · have hk' : k = 8 * j + m := by omega
        subst hk'
        rw [unpack_bits_getD _ _ _ hk, test_bit_eq_testBit,
            hdiv m hm, hmod m hm] at hget
        exact ⟨hm, hk, hget⟩
    · rintro ⟨hm, hcnt, hbit⟩
      refine Or.inr ⟨by omega, hm, 8 * j + m, hcnt, ?_, by omega⟩
      rw [unpack_bits_getD _ _ _ hcnt, test_bit_eq_testBit,
          hdiv m hm, hmod m hm]
      exact hbit
  by_cases hm : m < 8
  · by_cases hcnt : 8 * j + m < count
    · rw [Bool.eq_iff_iff, hpack]
      constructor
      · rintro ⟨-, -, h⟩
        exact h
      · intro h
        exact ⟨hm, hcnt, h⟩
    · have h2 : (data.getD j 0).testBit m = false := by
        have ht := htrail (8 * j + m) (by omega)
        rw [test_bit_eq_testBit, hdiv m hm, hmod m hm] at ht
        exact ht
      rw [h2]
      cases hb : ((pack_bits (unpack_bits data count)).getD j 0).testBit m
      · rfl
      · rw [hpack] at hb
        omega
  · have h2 : (data.getD j 0).testBit m = false := by
      apply Nat.testBit_eq_false_of_lt
      have hmem : data.getD j 0 ∈ data := by
        rw [List.getD_eq_getElem _ 0 hjd]
        exact List.getElem_mem hjd
      have hlt : data.getD j 0 < 256 := hbytes _ hmem
      have h256 : (256 : Nat) ≤ 2 ^ m := by
        calc (256 : Nat) = 2 ^ 8 := by norm_num
        _ ≤ 2 ^ m := Nat.pow_le_pow_right (by norm_num) (by omega)
      omega
    rw [h2]
    cases hb : ((pack_bits (unpack_bits data count)).getD j 0).testBit m
    · rfl
    · rw [hpack] at hb
      omega

end PyModbus

namespace PyModbus

/-- C6 witness: 4 bits packed in the single byte 0x0D. -/
theorem C6_pack_unpack_roundtrip_witness :
    1 ≤ 4 ∧ ([13] : List Nat).length = (4 + 7) / 8 ∧
      (∀ b ∈ ([13] : List Nat), b < 256) ∧
      (∀ i, 4 ≤ i → test_bit (([13] : List Nat).getD (i / 8) 0) (i % 8) = false) ∧
      pack_bits (unpack_bits [13] 4) = [13] := by
  have htrail : ∀ i, 4 ≤ i →
      test_bit (([13] : List Nat).getD (i / 8) 0) (i % 8) = false := by
    intro i hi
    by_cases h8 : i < 8
    · interval_cases i <;> decide
    · have h0 : ([13] : List Nat).getD (i / 8) 0 = 0 := by
        rw [List.getD_eq_getElem?_getD, List.getElem?_eq_none]
        · rfl
        · simp
          omega
      rw [h0]
      simp [test_bit]
  exact ⟨by norm_num, by norm_num, by norm_num, htrail,
    C6_pack_unpack_roundtrip 4 [13] (by norm_num) (by norm_num)
      (by norm_num) htrail⟩

end PyModbus
namespace PyModbus

theorem set_bits_some_length (bits bits2 : List Bool) (a : Int) (l : List Bool)
    (h : DataBank.set_bits bits a l = some bits2) :
    bits2.length = bits.length := by
  unfold DataBank.set_bits at h
  split at h
  case isFalse => cases h
  case isTrue hg =>
    injection h with h2
    subst h2
    obtain ⟨h0, hle⟩ := hg
    have hle' : a.toNat + l.length ≤ bits.length := by omega
    simp [List.length_take, List.length_drop]
    omega

theorem set_words_some_length (words words2 : List Nat) (a : Int) (l : List Nat)
    (h : DataBank.set_words words a l = some words2) :
    words2.length = words.length := by
  unfold DataBank.set_words at h
  split at h
  case isFalse => cases h
  case isTrue hg =>
    injection h with h2
    subst h2
    obtain ⟨h0, hle⟩ := hg
    have hle' : a.toNat + l.length ≤ words.length := by omega
    simp [List.length_take, List.length_drop]
    omega

theorem set_words_some_mem (words words2 : List Nat) (a : Int) (l : List Nat)
    (h : DataBank.set_words words a l = some words2) :
    ∀ w ∈ words2, w ∈ words ∨ w ∈ l := by
  unfold DataBank.set_words at h
  split at h
  case isFalse => cases h
  case isTrue hg =>
    injection h with h2
    subst h2
    intro w hw
    rcases List.mem_append.mp hw with hw1 | hw2
    · rcases List.mem_append.mp hw1 with hw3 | hw4
      · exact Or.inl (List.take_subset _ _ hw3)
      · exact Or.inr hw4
    · exact Or.inl (List.drop_subset _ _ hw2)

theorem WF_set_bits (bank : Bank) (bits2 : List Bool) (a : Int) (l : List Bool)
    (hWF : WFBank bank) (h : DataBank.set_bits bank.bits a l = some bits2) :
    WFBank { bank with bits := bits2 } := by
  obtain ⟨hb, hw, hmem⟩ := hWF
  exact ⟨by rw [show ({ bank with bits := bits2 } : Bank).bits = bits2 from rfl,
              set_bits_some_length _ _ _ _ h, hb], hw, hmem⟩

theorem WF_set_words (bank : Bank) (words2 : List Nat) (a : Int) (l : List Nat)
    (hWF : WFBank bank) (hl : ∀ w ∈ l, w < 0x10000)
    (h : DataBank.set_words bank.words a l = some words2) :
    WFBank { bank with words := words2 } := by
  obtain ⟨hb, hw, hmem⟩ := hWF
  refine ⟨hb, ?_, ?_⟩
  · rw [show ({ bank with words := words2 } : Bank).words = words2 from rfl,
        set_words_some_length _ _ _ _ h, hw]
  · intro w hmw
    rcases set_words_some_mem _ _ _ _ h w hmw with h1 | h2
    · exact hmem w h1
    · exact hl w h2

theorem getD_lt_256 (l : List Nat) (h256 : ∀ x ∈ l, x < 256) (i : Nat)
    (hi : i < l.length) : l.getD i 0 < 256 := by
  rw [List.getD_eq_getElem _ 0 hi]
  exact h256 _ (List.getElem_mem hi)

theorem unpack_HH_bounds (l : List Nat) (a b : Nat)
    (h256 : ∀ x ∈ l, x < 256) (h : unpack_HH l = some (a, b)) :
    a < 0x10000 ∧ b < 0x10000 := by
  unfold unpack_HH at h
  split at h
  case isFalse => cases h
  case isTrue hlen =>
    injection h with h2
    injection h2 with h3 h4
    have g0 := getD_lt_256 l h256 0 (by omega)
    have g1 := getD_lt_256 l h256 1 (by omega)
    have g2 := getD_lt_256 l h256 2 (by omega)
    have g3 := getD_lt_256 l h256 3 (by omega)
    omega

theorem read_words_loop_bounds (rx_body : List Nat)
    (h256 : ∀ x ∈ rx_body, x < 256) :
    ∀ (n : Nat) (wl : List Nat), read_words_loop rx_body n = some wl →
      ∀ w ∈ wl, w < 0x10000 := by
  intro n
  induction n with
  | zero =>
    intro wl h w hw
    rw [show read_words_loop rx_body 0 = some [] from rfl] at h
    injection h with h2
    subst h2
    cases hw
  | succ n ih =>
    intro wl h w hw
    rw [show read_words_loop rx_body (n + 1) =
        match read_words_loop rx_body n with
        | none => none
        | some l =>
          match rx_body.get? (n * 2 + 6), rx_body.get? (n * 2 + 7) with
          | some hi, some lo => some (l ++ [hi * 256 + lo])
          | _, _ => none from rfl] at h
    cases hprev : read_words_loop rx_body n with
    | none => rw [hprev] at h; cases h
    | some l =>
      rw [hprev] at h
      cases hhi : rx_body.get? (n * 2 + 6) with
      | none => rw [hhi] at h; cases h
      | some hi =>
        cases hlo : rx_body.get? (n * 2 + 7) with
        | none => rw [hhi, hlo] at h; cases h
        | some lo =>
          rw [hhi, hlo] at h
          injection h with h2
          subst h2
          rcases List.mem_append.mp hw with hw1 | hw2
          · exact ih l hprev w hw1
          · have hwm : w = hi * 256 + lo := by simpa using hw2
            rw [List.get?_eq_getElem?] at hhi hlo
            have hhi' : hi < 256 := h256 _ (List.getElem?_mem hhi)
            have hlo' : lo < 256 := h256 _ (List.getElem?_mem hlo)
            omega

end PyModbus
namespace PyModbus

theorem modbus_reply_WF (bank : Bank) (fc : Nat) (rx_body tx : List Nat)
    (bank2 : Bank) (hWF : WFBank bank)
    (hbody : ∀ x ∈ rx_body, x < 256)
    (h : modbus_reply bank fc rx_body = some (tx, bank2)) :
    WFBank bank2 := by
  have hdrop : ∀ x ∈ rx_body.drop 1, x < 256 :=
    fun x hx => hbody x (List.drop_subset _ _ hx)
  dsimp only [modbus_reply] at h
  split at h
  · -- read coils / discrete inputs
    split at h
    case h_1 => cases h
    case h_2 b_address b_count heq =>
      split at h
      · split at h
        case h_1 bits_l hbits =>
          split at h
          · injection h with hh
            injection hh with h1 h2
            subst h2
            exact hWF
          · injection h with hh
            injection hh with h1 h2
            subst h2
            exact hWF
        case h_2 => injection h with hh; injection hh with h1 h2; subst h2; exact hWF
      · injection h with hh
        injection hh with h1 h2
        subst h2
        exact hWF
  · split at h
    · -- read holding / input registers
      split at h
      case h_1 => cases h
      case h_2 w_address w_count heq =>
        split at h
        · split at h
          case h_1 words_l hwords =>
            split at h
            · injection h with hh
              injection hh with h1 h2
              subst h2
              exact hWF
            · injection h with hh
              injection hh with h1 h2
              subst h2
              exact hWF
          case h_2 => injection h with hh; injection hh with h1 h2; subst h2; exact hWF
        · injection h with hh
          injection hh with h1 h2
          subst h2
          exact hWF
    · split at h
      · -- write single coil
        split at h
        case h_1 => cases h
        case h_2 b_address b_value heq =>
          split at h
          case h_1 bits2 hset =>
            injection h with hh
            injection hh with h1 h2
            subst h2
            exact WF_set_bits bank bits2 _ _ hWF hset
          case h_2 =>
            injection h with hh
            injection hh with h1 h2
            subst h2
            exact hWF
      · split at h
        · -- write single register
          split at h
          case h_1 => cases h
          case h_2 w_address w_value heq =>
            split at h
            case h_1 words2 hset =>
              injection h with hh
              injection hh with h1 h2
              subst h2
              have hv : w_value < 0x10000 :=
                (unpack_HH_bounds _ _ _ hdrop heq).2
              refine WF_set_words bank words2 _ _ hWF ?_ hset
              intro w hw
              have : w = w_value := by simpa using hw
              omega
            case h_2 =>
              injection h with hh
              injection hh with h1 h2
              subst h2
              exact hWF
        · split at h
          · -- write multiple coils
            split at h
            case h_1 => cases h
            case h_2 b_address b_count byte_count heq =>
              split at h
              · split at h
                case h_1 => cases h
                case h_2 bits_l hloop =>
                  split at h
                  case h_1 bits2 hset =>
                    injection h with hh
                    injection hh with h1 h2
                    subst h2
                    exact WF_set_bits bank bits2 _ _ hWF hset
                  case h_2 =>
                    injection h with hh
                    injection hh with h1 h2
                    subst h2
                    exact hWF
              · injection h with hh
                injection hh with h1 h2
                subst h2
                exact hWF
          · split at h
            · -- write multiple registers
              split at h
              case h_1 => cases h
              case h_2 w_address w_count byte_count heq =>
                split at h
                · split at h
                  case h_1 => cases h
                  case h_2 words_l hloop =>
                    split at h
                    case h_1 words2 hset =>
                      injection h with hh
                      injection hh with h1 h2
                      subst h2
                      refine WF_set_words bank words2 _ _ hWF ?_ hset
                      exact read_words_loop_bounds rx_body hbody w_count words_l hloop
                    case h_2 =>
                      injection h with hh
                      injection hh with h1 h2
                      subst h2
                      exact hWF
                · injection h with hh
                  injection hh with h1 h2
                  subst h2
                  exact hWF
            · -- unknown function code
              injection h with hh
              injection hh with h1 h2
              subst h2
              exact hWF

end PyModbus
namespace PyModbus

theorem handle_step_WF (bank : Bank) (stream tx rest : List Nat) (bank2 : Bank)
    (hWF : WFBank bank) (hstream : ∀ x ∈ stream, x < 256)
    (h : handle_step bank stream = some (tx, bank2, rest)) :
    WFBank bank2 := by
  dsimp only [handle_step] at h
  split at h
  case isFalse => cases h
  case isTrue hhead =>
    split at h
    case h_1 => cases h
    case h_2 tr pr ln uid heq =>
      split at h
      case isFalse => cases h
      case isTrue hhdr =>
        split at h
        case isFalse => cases h
        case isTrue hbody =>
          split at h
          case isFalse => cases h
          case isTrue hfc =>
            split at h
            case h_1 => cases h
            case h_2 tx_body bank3 hm =>
              injection h with hh
              injection hh with h1 h2
              injection h2 with h3 h4
              subst h3
              refine modbus_reply_WF bank _ _ _ _ hWF ?_ hm
              intro x hx
              exact hstream x (List.drop_subset _ _ (List.take_subset _ _ hx))

/-- C10: every bank reachable from the initial state through handled
byte-stream requests keeps both spaces at exactly 65536 entries with all
words unsigned 16-bit: reads leave the bank alone, coil writes replace
in-range boolean slices, and register writes only insert values decoded
big-endian from two received bytes. -/
theorem C10_reachable_WF (bank : Bank) (h : Reachable bank) : WFBank bank := by
  induction h with
  | init => exact initBank_WF
  | step b s tx rest b2 hr hs hstep ih =>
    exact handle_step_WF b s tx rest b2 ih hs hstep

/-- C10 witness: the initial bank is reachable and well-formed. -/
theorem C10_reachable_WF_witness : WFBank initBank :=
  C10_reachable_WF initBank Reachable.init

end PyModbus
